import Mathlib

/- Verification of the GHPL batch-orchestration and reliability layer:
shallow embeddings of the rate limiter, the retry loops, the progress
store, the daily quota tracker, the ground-truth comparison, the export
dedup and the results collector, with theorems settling the claims of the
specification against them. -/

namespace GHPL

/-! ## SearchQuotaTracker (src/cli.py lines 364-437) -/

/-- Persisted quota file contents: `date` and `count`.  The file also
stores a `max_searches` field, but `_load_quota` never reads it back, so
it is not modelled.  A missing or unparseable file is `none` at the use
sites below. -/
structure QuotaFile where
  date : String
  count : Nat
deriving Repr, DecidableEq

/-- In-memory state of `SearchQuotaTracker` together with the backing
quota file. -/
structure QuotaState where
  searchesToday : Nat
  dateToday : String
  file : Option QuotaFile
deriving Repr, DecidableEq

/-- `SearchQuotaTracker._save_quota`: write the current date and count to
the quota file. -/
def saveQuota (st : QuotaState) : QuotaState :=
  { st with file := some ⟨st.dateToday, st.searchesToday⟩ }

/-- `SearchQuotaTracker._load_quota` on calendar date `today`: if the file
exists and holds today's date, adopt its count; otherwise reset the count
to 0, adopt today's date, and save. -/
def loadQuota (today : String) (st : QuotaState) : QuotaState :=
  match st.file with
  | some f =>
      if f.date = today then
        { st with searchesToday := f.count, dateToday := today }
      else
        saveQuota { st with searchesToday := 0, dateToday := today }
  | none => saveQuota { st with searchesToday := 0, dateToday := today }

/-- `SearchQuotaTracker.can_use_search` (only called while holding the
lock): reload on a date change, then compare the count against the cap.
The updated state is returned alongside the answer because `_load_quota`
mutates the tracker. -/
def canUseSearch (maxSearches : Nat) (today : String) (st : QuotaState) :
    Bool × QuotaState :=
  let st' := if today ≠ st.dateToday then loadQuota today st else st
  (decide (st'.searchesToday < maxSearches), st')

/-- `SearchQuotaTracker.use_search_quota`: consume one unit of today's
quota if available, persisting the new count; otherwise return false. -/
def useSearchQuota (maxSearches : Nat) (today : String) (st : QuotaState) :
    Bool × QuotaState :=
  let p := canUseSearch maxSearches today st
  if p.1 then
    (true, saveQuota { p.2 with searchesToday := p.2.searchesToday + 1 })
  else
    (false, p.2)

/-- Tracker state right after `__post_init__` (which calls `_load_quota`)
when no quota file exists yet. -/
def freshQuota (today : String) : QuotaState :=
  loadQuota today ⟨0, "", none⟩

/-- Run `n` consecutive `use_search_quota` calls on date `today`,
returning the list of answers and the final state. -/
def useQuotaN (maxSearches : Nat) (today : String) :
    Nat → QuotaState → List Bool × QuotaState
  | 0, st => ([], st)
  | n + 1, st =>
      let p := useSearchQuota maxSearches today st
      let q := useQuotaN maxSearches today n p.2
      (p.1 :: q.1, q.2)

/-! ## Resume-mode filtering (src/cli.py lines 1939-1943) -/

/-- The resume branch of `batch_process_pdfs`: keep the discovered
(filename, path) pairs whose filename is not already in
`progress.completed`; only these are submitted to the worker pool. -/
def resumeFilter (pdfFiles : List (String × String)) (completed : List String) :
    List (String × String) :=
  pdfFiles.filter (fun kv => decide (kv.1 ∉ completed))

/-! ## BatchResults.get_summary (src/cli.py lines 537-595) -/

/-- The `summary_stats` dictionary of `BatchResults` (src/cli.py
lines 544-552). -/
structure SummaryStats where
  total_processed : Nat
  successful : Nat
  failed : Nat
  avg_confidence : ℚ
  avg_accuracy : ℚ
  total_discrepancies : Nat
  search_resolutions : Nat
deriving Repr, DecidableEq

/-- Collector state of `BatchResults`: the result rows, the deviation log
and the running summary dictionary.  Rows and log entries are opaque to
`get_summary`, so they are modelled as strings. -/
structure BatchResultsState where
  results : List String
  deviation_log : List String
  summary_stats : SummaryStats
deriving Repr, DecidableEq

/-- `BatchResults.get_summary` (src/cli.py lines 588-595): copy the stats
dictionary, divide the accumulated confidence/accuracy sums by
`successful` on the copy, and return the copy.  The collector state comes
back unchanged because only the copy is written to. -/
def getSummary (b : BatchResultsState) : SummaryStats × BatchResultsState :=
  let stats := b.summary_stats
  let stats' :=
    if 0 < stats.successful then
      { stats with
          avg_confidence := stats.avg_confidence / (stats.successful : ℚ),
          avg_accuracy := stats.avg_accuracy / (stats.successful : ℚ) }
    else stats
  (stats', b)

/-! ## Helper lemmas for the quota tracker -/

lemma useSearchQuota_step (maxS j : Nat) (today : String)
    (hj : j < maxS) (f : Option QuotaFile) :
    useSearchQuota maxS today ⟨j, today, f⟩ =
      (true, ⟨j + 1, today, some ⟨today, j + 1⟩⟩) := by
  simp [useSearchQuota, canUseSearch, hj, saveQuota]

lemma useSearchQuota_exhausted (maxS : Nat) (today : String)
    (f : Option QuotaFile) :
    useSearchQuota maxS today ⟨maxS, today, f⟩ =
      (false, ⟨maxS, today, f⟩) := by
  simp [useSearchQuota, canUseSearch]

lemma useQuotaN_fresh_run (maxS : Nat) (today : String) :
    ∀ k j : Nat, j + k ≤ maxS →
      useQuotaN maxS today k ⟨j, today, some ⟨today, j⟩⟩ =
        (List.replicate k true, ⟨j + k, today, some ⟨today, j + k⟩⟩)
  | 0, j, _ => by simp [useQuotaN]
  | k + 1, j, h => by
      have hj : j < maxS := by omega
      have ih := useQuotaN_fresh_run maxS today k (j + 1) (by omega)
      simp only [useQuotaN, useSearchQuota_step maxS j today hj, ih]
      have hjk : j + 1 + k = j + (k + 1) := by omega
      rw [hjk]
      rfl

/-- Claim C4: for a fixed calendar date, starting from a fresh tracker,
the first `max_searches_per_day` calls to `use_search_quota` all return
true, with the in-memory and persisted count equal to `k` after `k`
calls; the `(max+1)`-th call returns false and mutates neither the
in-memory state nor the file; and after the calendar date changes the
next call returns true with the count reset to 1. -/
theorem quota_cap_and_rollover (maxS : Nat) (today tomorrow : String)
    (hd : tomorrow ≠ today) (hpos : 0 < maxS) :
    (∀ k, k ≤ maxS →
        useQuotaN maxS today k (freshQuota today) =
          (List.replicate k true, ⟨k, today, some ⟨today, k⟩⟩))
    ∧ useSearchQuota maxS today ⟨maxS, today, some ⟨today, maxS⟩⟩ =
        (false, ⟨maxS, today, some ⟨today, maxS⟩⟩)
    ∧ useSearchQuota maxS tomorrow ⟨maxS, today, some ⟨today, maxS⟩⟩ =
        (true, ⟨1, tomorrow, some ⟨tomorrow, 1⟩⟩) := by
  refine ⟨fun k hk => ?_, useSearchQuota_exhausted maxS today _, ?_⟩
  · have h0 : freshQuota today = ⟨0, today, some ⟨today, 0⟩⟩ := by
      simp [freshQuota, loadQuota, saveQuota]
    rw [h0]
    simpa using useQuotaN_fresh_run maxS today k 0 (by omega)
  · have hd' : (today : String) ≠ tomorrow := fun h => hd h.symm
    simp [useSearchQuota, canUseSearch, hd, loadQuota, hd', saveQuota, hpos]

/-- Witness for `quota_cap_and_rollover` at `maxS = 2` and concrete
dates, with the per-call conjunct instantiated at `k = 2`. -/
theorem quota_cap_and_rollover_witness :
    useQuotaN 2 "2026-10-12" 2 (freshQuota "2026-10-12") =
      (List.replicate 2 true,
        ⟨2, "2026-10-12", some ⟨"2026-10-12", 2⟩⟩)
    ∧ useSearchQuota 2 "2026-10-12"
        ⟨2, "2026-10-12", some ⟨"2026-10-12", 2⟩⟩ =
        (false, ⟨2, "2026-10-12", some ⟨"2026-10-12", 2⟩⟩)
    ∧ useSearchQuota 2 "2026-10-13"
        ⟨2, "2026-10-12", some ⟨"2026-10-12", 2⟩⟩ =
        (true, ⟨1, "2026-10-13", some ⟨"2026-10-13", 1⟩⟩) :=
  ⟨(quota_cap_and_rollover 2 "2026-10-12" "2026-10-13" (by decide)
      (by decide)).1 2 (by decide),
    (quota_cap_and_rollover 2 "2026-10-12" "2026-10-13" (by decide)
      (by decide)).2⟩

/-- Claim C5: in resume mode, the work items submitted for processing are
exactly those whose id is not in the loaded record's `completed`
collection; in particular with `completed = [A, B]` over the 3-item input
`[A, B, C]`, only `C` is processed. -/
theorem resume_processes_only_uncompleted :
    (∀ (files : List (String × String)) (completed : List String)
        (kv : String × String),
        kv ∈ resumeFilter files completed ↔ kv ∈ files ∧ kv.1 ∉ completed)
    ∧ resumeFilter [("A", "pA"), ("B", "pB"), ("C", "pC")] ["A", "B"] =
        [("C", "pC")] := by
  constructor
  · intro files completed kv
    simp [resumeFilter, List.mem_filter]
  · rfl

/-- Claim C10: `get_summary` never mutates the collector: it returns the
state unchanged (results, deviation log and summary stats all equal), and
a second call with no intervening `add_result` returns an equal
dictionary. -/
theorem getSummary_pure (b : BatchResultsState) :
    (getSummary b).2 = b ∧
    (getSummary ((getSummary b).2)).1 = (getSummary b).1 ∧
    ((getSummary b).2).results = b.results ∧
    ((getSummary b).2).deviation_log = b.deviation_log ∧
    ((getSummary b).2).summary_stats = b.summary_stats := by
  refine ⟨rfl, rfl, rfl, rfl, rfl⟩

/-! ## Retry loops (src/get_metadata.py lines 477-556 and src/cli.py
lines 1668-1830) -/

/-- Head match of a character pattern against a character list. -/
def charsMatchAt : List Char → List Char → Bool
  | [], _ => true
  | _ :: _, [] => false
  | a :: as, b :: bs => a == b && charsMatchAt as bs

/-- Python's `pat in s` substring test, on character lists. -/
def occursChars (pat : List Char) : List Char → Bool
  | [] => charsMatchAt pat []
  | s@(_ :: rest) => charsMatchAt pat s || occursChars pat rest

/-- Python's `pat in s` substring containment on strings. -/
def occursIn (pat s : String) : Bool :=
  occursChars pat.toList s.toList

/-- Python's `str.lower()`, modelled by lowering each character (the
error messages classified by the retry loops are ASCII, where the two
agree). -/
def pyLower (s : String) : String :=
  ⟨s.data.map Char.toLower⟩

/-- Outcome of one attempt of the body of the Gemini retry loop (the
`generate_content` call plus response parsing): success, or an exception
carrying its message. -/
inductive GeminiOutcome where
  | ok
  | err (msg : String)

/-- The `retryable_errors` substring table of `get_metadata_from_gemini`
(src/get_metadata.py lines 533-536). -/
def geminiRetryableErrors : List String :=
  ["rate limit", "quota", "timeout", "503", "429",
   "connection", "temporary", "unavailable"]

/-- `should_retry` classification of `get_metadata_from_gemini`: the
lowercased message contains one of the retryable substrings. -/
def geminiShouldRetry (msg : String) : Bool :=
  geminiRetryableErrors.any (fun e => occursIn e (pyLower msg))

/-- `backoff_time = (2 ** retry) * 2`, the sleep taken at the top of the
loop iteration for attempt index `retry` (src/get_metadata.py line 481 and
src/cli.py line 1685). -/
def backoffSeconds (retry : Nat) : ℚ := 2 ^ retry * 2

/-- The sleep the code performs after a retryable failure at 0-based
attempt `n`, namely the backoff of the following attempt `n + 1`. -/
def sleepAfterFailure (n : Nat) : ℚ := backoffSeconds (n + 1)

/-- The `for retry in range(max_retries + 1)` loop of
`get_metadata_from_gemini`, iterated over the remaining attempt indices.
Returns (success, attempts made, sleeps performed).  The `[]` case is the
fall-through after the loop (`return None`); it is unreachable because
the final iteration always returns inside the loop. -/
def geminiTry (op : Nat → GeminiOutcome) (maxRetries : Nat) :
    List Nat → Bool × Nat × List ℚ
  | [] => (false, 0, [])
  | retry :: rest =>
      let sleeps := if 0 < retry then [backoffSeconds retry] else []
      match op retry with
      | .ok => (true, retry + 1, sleeps)
      | .err msg =>
          if !(geminiShouldRetry msg) || maxRetries ≤ retry then
            (false, retry + 1, sleeps)
          else
            let r := geminiTry op maxRetries rest
            (r.1, r.2.1, sleeps ++ r.2.2)

/-- `get_metadata_from_gemini`'s retry loop run from attempt 0. -/
def geminiRun (op : Nat → GeminiOutcome) (maxRetries : Nat) :
    Bool × Nat × List ℚ :=
  geminiTry op maxRetries (List.range (maxRetries + 1))

/-- Outcome of one attempt of the body of `process_single_pdf_batch`'s
retry loop: success, or an exception with its type name and message. -/
inductive PdfOutcome where
  | ok
  | err (errType errMsg : String)

/-- `non_retryable_errors` (src/cli.py lines 1776-1780). -/
def nonRetryableErrors : List String :=
  ["FileNotFoundError", "PermissionError", "JSONDecodeError"]

/-- `retryable_messages` (src/cli.py lines 1783-1792). -/
def retryableMessages : List String :=
  ["rate limit", "quota exceeded", "timeout", "503", "429",
   "connection", "temporary", "unavailable"]

/-- `should_retry` of `process_single_pdf_batch` (src/cli.py
lines 1794-1797): the error type is not in the non-retryable table, and
either the lowercased message contains a retryable substring or the retry
budget is not yet exhausted. -/
def pdfShouldRetry (maxRetries retryCount : Nat) (ty msg : String) : Bool :=
  !(nonRetryableErrors.contains ty) &&
    (retryableMessages.any (fun e => occursIn e (pyLower msg)) ||
      decide (retryCount < maxRetries))

/-- The `while retry_count <= max_retries` loop of
`process_single_pdf_batch`, with fuel `maxRetries + 1 - retryCount`
standing for the loop guard.  Returns (success, attempts made, sleeps
performed).  Fuel 0 is the "should never reach here" exit after the
guard fails, which returns False. -/
def pdfTry (op : Nat → PdfOutcome) (maxRetries : Nat) :
    Nat → Nat → Bool × Nat × List ℚ
  | _, 0 => (false, 0, [])
  | rc, fuel + 1 =>
      let sleeps := if 0 < rc then [backoffSeconds rc] else []
      match op rc with
      | .ok => (true, rc + 1, sleeps)
      | .err ty msg =>
          if !(pdfShouldRetry maxRetries rc ty msg) || maxRetries ≤ rc then
            (false, rc + 1, sleeps)
          else
            let r := pdfTry op maxRetries (rc + 1) fuel
            (r.1, r.2.1, sleeps ++ r.2.2)

/-- `process_single_pdf_batch`'s retry loop run from `retry_count = 0`. -/
def pdfRun (op : Nat → PdfOutcome) (maxRetries : Nat) :
    Bool × Nat × List ℚ :=
  pdfTry op maxRetries 0 (maxRetries + 1)

/-! ### Helper lemmas for the retry loops -/

lemma geminiTry_cons_err (op : Nat → GeminiOutcome) (n retry : Nat)
    (rest : List Nat) (m : String) (hm : op retry = GeminiOutcome.err m)
    (hr : geminiShouldRetry m = true) (hlt : ¬ n ≤ retry) :
    geminiTry op n (retry :: rest) =
      ((geminiTry op n rest).1, (geminiTry op n rest).2.1,
        (if 0 < retry then [backoffSeconds retry] else []) ++
          (geminiTry op n rest).2.2) := by
  simp only [geminiTry, hm, hr, Bool.not_true, Bool.false_or]
  rw [if_neg (by simpa using hlt)]

lemma geminiTry_all_retryable (op : Nat → GeminiOutcome) (n : Nat)
    (h : ∀ i, ∃ m, op i = GeminiOutcome.err m ∧ geminiShouldRetry m = true) :
    ∀ k j, j + k = n →
      geminiTry op n (List.range' j (k + 1)) =
        (false, n + 1,
          ((List.range' j (k + 1)).filter (fun r => 0 < r)).map backoffSeconds)
  | 0, j, hj => by
      obtain ⟨m, hm, hr⟩ := h j
      subst hj
      simp [geminiTry, List.range', hm, hr, List.filter]
      by_cases h0 : 0 < j <;> simp [h0]
  | k + 1, j, hj => by
      obtain ⟨m, hm, hr⟩ := h j
      have hlt : ¬ (n ≤ j) := by omega
      have ih := geminiTry_all_retryable op n h k (j + 1) (by omega)
      rw [List.range'_succ, geminiTry_cons_err op n j _ m hm hr hlt, ih]
      by_cases h0 : 0 < j <;> simp [h0, List.filter_cons]

lemma pdfTry_all_retryable (op : Nat → PdfOutcome) (n : Nat)
    (h : ∀ i, ∃ ty m, op i = PdfOutcome.err ty m ∧
        nonRetryableErrors.contains ty = false ∧
        retryableMessages.any (fun e => occursIn e (pyLower m)) = true) :
    ∀ fuel rc, rc + fuel = n + 1 → 0 < fuel →
      (pdfTry op n rc fuel).1 = false ∧ (pdfTry op n rc fuel).2.1 = n + 1
  | 0, rc, _, hf => absurd hf (by omega)
  | fuel + 1, rc, hrc, _ => by
      obtain ⟨ty, m, hm, hty, hmsg⟩ := h rc
      by_cases hend : n ≤ rc
      · have : rc = n := by omega
        subst this
        simp [pdfTry, hm, pdfShouldRetry, hty, hmsg]
      · have hf0 : 0 < fuel := by omega
        have ih := pdfTry_all_retryable op n h fuel (rc + 1) (by omega) hf0
        simp only [pdfTry, hm, pdfShouldRetry, hty, hmsg]
        simp only [Bool.false_eq_true, not_false_eq_true, Bool.not_eq_true',
          Bool.true_and, Bool.true_or, Bool.not_true, Bool.false_or]
        rw [if_neg (by simpa using hend)]
        exact ⟨ih.1, ih.2⟩

/-- Claim C2: an operation whose every attempt raises a retryable error
is attempted exactly `max_retries + 1` times before the final failure is
surfaced, and an operation whose first attempt raises a fatal
(non-retryable) error is attempted exactly once — in both the
`get_metadata_from_gemini` loop and the `process_single_pdf_batch`
loop. -/
theorem retry_budget (maxRetries : Nat)
    (gop : Nat → GeminiOutcome)
    (hg : ∀ i, ∃ m, gop i = GeminiOutcome.err m ∧ geminiShouldRetry m = true)
    (pop : Nat → PdfOutcome)
    (hp : ∀ i, ∃ ty m, pop i = PdfOutcome.err ty m ∧
        nonRetryableErrors.contains ty = false ∧
        retryableMessages.any (fun e => occursIn e (pyLower m)) = true)
    (gop2 : Nat → GeminiOutcome) (m2 : String)
    (hg2 : gop2 0 = GeminiOutcome.err m2) (hm2 : geminiShouldRetry m2 = false)
    (pop2 : Nat → PdfOutcome) (ty2 msg2 : String)
    (hp2 : pop2 0 = PdfOutcome.err ty2 msg2)
    (hty2 : nonRetryableErrors.contains ty2 = true) :
    ((geminiRun gop maxRetries).1 = false ∧
      (geminiRun gop maxRetries).2.1 = maxRetries + 1)
    ∧ ((pdfRun pop maxRetries).1 = false ∧
      (pdfRun pop maxRetries).2.1 = maxRetries + 1)
    ∧ geminiRun gop2 maxRetries = (false, 1, [])
    ∧ pdfRun pop2 maxRetries = (false, 1, []) := by
  refine ⟨?_, ?_, ?_, ?_⟩
  · have := geminiTry_all_retryable gop maxRetries hg maxRetries 0 (by omega)
    rw [geminiRun, List.range_eq_range', this]
    exact ⟨rfl, rfl⟩
  · exact pdfTry_all_retryable pop maxRetries hp (maxRetries + 1) 0
      (by omega) (by omega)
  · simp [geminiRun, List.range_succ_eq_map, geminiTry, hg2, hm2]
  · have hmem : ty2 ∈ nonRetryableErrors := by simpa using hty2
    simp [pdfRun, pdfTry, hp2, pdfShouldRetry, hmem]

/-- Witness for `retry_budget` at `maxRetries = 2` with concrete
always-retryable and fatal operations. -/
theorem retry_budget_witness :
    ((geminiRun (fun _ => GeminiOutcome.err "timeout") 2).1 = false ∧
      (geminiRun (fun _ => GeminiOutcome.err "timeout") 2).2.1 = 3)
    ∧ ((pdfRun (fun _ => PdfOutcome.err "Exception" "Connection reset") 2).1
        = false ∧
      (pdfRun (fun _ => PdfOutcome.err "Exception" "Connection reset") 2).2.1
        = 3)
    ∧ geminiRun (fun _ => GeminiOutcome.err "invalid argument") 2 =
        (false, 1, [])
    ∧ pdfRun (fun _ => PdfOutcome.err "FileNotFoundError" "missing file") 2 =
        (false, 1, []) :=
  retry_budget 2
    (fun _ => GeminiOutcome.err "timeout")
    (fun _ => ⟨"timeout", rfl, by decide⟩)
    (fun _ => PdfOutcome.err "Exception" "Connection reset")
    (fun _ => ⟨"Exception", "Connection reset", rfl, by decide, by decide⟩)
    (fun _ => GeminiOutcome.err "invalid argument") "invalid argument"
    rfl (by decide)
    (fun _ => PdfOutcome.err "FileNotFoundError" "missing file")
    "FileNotFoundError" "missing file" rfl (by decide)

/-- Claim C9 counterexample: the code's post-failure sleep is
`(2 ** (n+1)) * 2 = 4 * 2^n` seconds, with no cap and no jitter — there
are no constants `base` and `cap` such that the sleep after a failure at
attempt `n` equals `min(base * 2^n, cap)` for every `n`, because the
minimum is bounded above by `cap` while the code's sleeps grow without
bound. -/
theorem backoff_not_capped :
    ¬ ∃ base cap : ℚ, ∀ n : Nat,
        sleepAfterFailure n = min (base * 2 ^ n) cap := by
  rintro ⟨base, cap, h⟩
  obtain ⟨n, hn⟩ := pow_unbounded_of_one_lt cap (y := (2 : ℚ)) (by norm_num)
  have hpow : (0 : ℚ) < 2 ^ n := pow_pos (by norm_num) n
  have hs : sleepAfterFailure n = 4 * 2 ^ n := by
    unfold sleepAfterFailure backoffSeconds
    rw [pow_succ]
    ring
  have hmin : min (base * 2 ^ n) cap ≤ cap := min_le_right _ _
  have := h n
  rw [hs] at this
  nlinarith

/-- Claim C9 amended: after a retryable failure at 0-based attempt `n`,
the sleep before the next attempt is exactly `(2 ** (n+1)) * 2 = 4 * 2^n`
seconds — deterministic exponential doubling, no cap, no jitter — and
retries continue up to `max_retries` additional attempts beyond the
first: an operation that always fails retryably performs exactly the
sleeps `backoff(1), ..., backoff(max_retries)` across its
`max_retries + 1` attempts. -/
theorem backoff_schedule (maxRetries : Nat)
    (op : Nat → GeminiOutcome)
    (h : ∀ i, ∃ m, op i = GeminiOutcome.err m ∧ geminiShouldRetry m = true) :
    (∀ n : Nat, sleepAfterFailure n = 4 * 2 ^ n)
    ∧ (geminiRun op maxRetries).2.2 =
        (List.range' 1 maxRetries).map backoffSeconds
    ∧ (geminiRun op maxRetries).2.1 = maxRetries + 1 := by
  have hrun := geminiTry_all_retryable op maxRetries h maxRetries 0 (by omega)
  rw [geminiRun, List.range_eq_range', hrun]
  refine ⟨fun n => ?_, ?_, rfl⟩
  · unfold sleepAfterFailure backoffSeconds
    rw [pow_succ]
    ring
  · have hfil : (List.range' 0 (maxRetries + 1)).filter (fun r => decide (0 < r))
        = List.range' 1 maxRetries := by
      rw [List.range'_succ, List.filter_cons]
      simp only [decide_eq_true_eq, Nat.lt_irrefl, if_false]
      refine List.filter_eq_self.mpr fun a ha => ?_
      have : 1 ≤ a ∧ a < 1 + maxRetries := List.mem_range'_1.mp ha
      simpa using this.1
    simp only [hfil]

/-- Witness for `backoff_schedule` at `maxRetries = 2` with a concrete
always-retryable operation, the sleep formula instantiated at `n = 3`. -/
theorem backoff_schedule_witness :
    sleepAfterFailure 3 = 4 * 2 ^ 3
    ∧ (geminiRun (fun _ => GeminiOutcome.err "timeout") 2).2.2 =
        (List.range' 1 2).map backoffSeconds
    ∧ (geminiRun (fun _ => GeminiOutcome.err "timeout") 2).2.1 = 3 :=
  ⟨(backoff_schedule 2 (fun _ => GeminiOutcome.err "timeout")
      (fun _ => ⟨"timeout", rfl, by decide⟩)).1 3,
    (backoff_schedule 2 (fun _ => GeminiOutcome.err "timeout")
      (fun _ => ⟨"timeout", rfl, by decide⟩)).2⟩

/-! ## BatchProgress and the checkpoint loop (src/cli.py lines 481-535
and 1994-2059) -/

/-- One entry of `progress.failed`: the dict
`{'filename': ..., 'timestamp': ..., 'error': ...}` appended on a failed
outcome (src/cli.py lines 2017-2021). -/
structure FailedEntry where
  filename : String
  timestamp : String
  error : String
deriving Repr, DecidableEq, Inhabited

/-- The fields of `BatchProgress` (src/cli.py lines 481-493); the three
optional export-path fields are constants of a run and are omitted. -/
structure BatchProgress where
  total_files : Nat
  completed : List String
  failed : List FailedEntry
  pending : List String
  start_time : String
  last_checkpoint : String
deriving Repr, DecidableEq, Inhabited

/-- The JSON dictionary written by `BatchProgress.save_to_file`
(src/cli.py lines 495-511): the progress fields plus the derived
`completion_rate`. -/
structure ProgressFileData where
  total_files : Nat
  completed : List String
  failed : List FailedEntry
  pending : List String
  start_time : String
  last_checkpoint : String
  completion_rate : ℚ
deriving Repr, DecidableEq, Inhabited

/-- `BatchProgress.save_to_file`. -/
def save_to_file (p : BatchProgress) : ProgressFileData :=
  ⟨p.total_files, p.completed, p.failed, p.pending, p.start_time,
    p.last_checkpoint,
    if 0 < p.total_files then
      (p.completed.length : ℚ) / (p.total_files : ℚ)
    else 0⟩

/-- `BatchProgress.load_from_file` on a readable file (src/cli.py
lines 513-532): rebuild the record from the stored fields. -/
def load_from_file (d : ProgressFileData) : BatchProgress :=
  ⟨d.total_files, d.completed, d.failed, d.pending, d.start_time,
    d.last_checkpoint⟩

/-- The fresh progress record of a non-resumed run (src/cli.py
lines 1912-1919). -/
def freshProgress (ids : List String) (now : String) : BatchProgress :=
  ⟨ids.length, [], [], ids, now, now⟩

/-- One iteration of the `as_completed` collection loop (src/cli.py
lines 2007-2026): on success append to `completed` (and, in retry-failed
mode, drop the id's entries from `failed`); on failure append a failure
entry; then remove the filename from `pending` if present and stamp the
checkpoint. -/
def stepOutcome (retryFailed : Bool) (filename : String) (success : Bool)
    (now : String) (p : BatchProgress) : BatchProgress :=
  let p' :=
    if success then
      { p with
          completed := p.completed ++ [filename],
          failed :=
            if retryFailed then
              p.failed.filter (fun e => decide (e.filename ≠ filename))
            else p.failed }
    else
      { p with failed := p.failed ++ [⟨filename, now, "Processing failed"⟩] }
  { p' with
      pending :=
        if filename ∈ p'.pending then p'.pending.erase filename
        else p'.pending,
      last_checkpoint := now }

/-- The sequence of persisted checkpoints: the file is saved after every
completed future (`progress.save_to_file(progress_file)`, src/cli.py
line 2036). -/
def checkpoints (retryFailed : Bool) (now : String) :
    List (String × Bool) → BatchProgress → List ProgressFileData
  | [], _ => []
  | (f, s) :: rest, p =>
      let p' := stepOutcome retryFailed f s now p
      save_to_file p' :: checkpoints retryFailed now rest p'

/-- The filenames recorded in the failed list. -/
def failedNames (l : List FailedEntry) : List String :=
  l.map FailedEntry.filename

/-- `load() → mark_completed(id) → save()` replay on the persisted
record: load the file, run the success branch of the collection loop for
`id`, and save again. -/
def replayMark (id now : String) (d : ProgressFileData) : ProgressFileData :=
  save_to_file (stepOutcome false id true now (load_from_file d))

/-! ### Helper lemmas for the checkpoint invariant -/

lemma stepOutcome_pending (retryFailed : Bool) (f : String) (s : Bool)
    (now : String) (p : BatchProgress) :
    (stepOutcome retryFailed f s now p).pending = p.pending.erase f := by
  by_cases hf : f ∈ p.pending <;>
    cases s <;>
      simp [stepOutcome, hf, List.erase_of_not_mem]

lemma stepOutcome_inv (f : String) (s : Bool) (now : String)
    (p : BatchProgress) (ids : List String)
    (hf : f ∈ p.pending)
    (hpart : ∀ id, id ∈ ids ↔
      id ∈ p.completed ∨ id ∈ p.pending ∨ id ∈ failedNames p.failed)
    (hcp : ∀ id, ¬(id ∈ p.completed ∧ id ∈ p.pending))
    (hcf : ∀ id, ¬(id ∈ p.completed ∧ id ∈ failedNames p.failed))
    (hpf : ∀ id, ¬(id ∈ p.pending ∧ id ∈ failedNames p.failed))
    (hnd : p.pending.Nodup) :
    let q := stepOutcome false f s now p
    (∀ id, id ∈ ids ↔
      id ∈ q.completed ∨ id ∈ q.pending ∨ id ∈ failedNames q.failed)
    ∧ (∀ id, ¬(id ∈ q.completed ∧ id ∈ q.pending))
    ∧ (∀ id, ¬(id ∈ q.completed ∧ id ∈ failedNames q.failed))
    ∧ (∀ id, ¬(id ∈ q.pending ∧ id ∈ failedNames q.failed))
    ∧ q.pending.Nodup := by
  intro q
  have hqp : q.pending = p.pending.erase f := stepOutcome_pending false f s now p
  have hmem : ∀ id, id ∈ q.pending ↔ id ≠ f ∧ id ∈ p.pending := by
    intro id
    rw [hqp]
    exact hnd.mem_erase_iff
  have hfc : f ∉ p.completed := fun h => hcp f ⟨h, hf⟩
  have hff : f ∉ failedNames p.failed := fun h => hpf f ⟨hf, h⟩
  cases s with
  | true =>
      have hqc : q.completed = p.completed ++ [f] := by
        simp [q, stepOutcome]
      have hqf : failedNames q.failed = failedNames p.failed := by
        simp [q, stepOutcome]
      refine ⟨?_, ?_, ?_, ?_, ?_⟩
      · intro id
        rw [hpart id, hqc, hqf]
        simp only [List.mem_append, List.mem_singleton, hmem id]
        by_cases hid : id = f <;> simp [hid, hf, hfc]
      · intro id ⟨h1, h2⟩
        rw [hqc] at h1
        rcases (hmem id).mp h2 with ⟨hne, hp2⟩
        rcases List.mem_append.mp h1 with h1 | h1
        · exact hcp id ⟨h1, hp2⟩
        · exact hne (List.mem_singleton.mp h1)
      · intro id ⟨h1, h2⟩
        rw [hqc] at h1
        rw [hqf] at h2
        rcases List.mem_append.mp h1 with h1 | h1
        · exact hcf id ⟨h1, h2⟩
        · exact hff (List.mem_singleton.mp h1 ▸ h2)
      · intro id ⟨h1, h2⟩
        rw [hqf] at h2
        rcases (hmem id).mp h1 with ⟨_, hp1⟩
        exact hpf id ⟨hp1, h2⟩
      · rw [hqp]
        exact hnd.erase f
  | false =>
      have hqc : q.completed = p.completed := by
        simp [q, stepOutcome]
      have hqf : failedNames q.failed = failedNames p.failed ++ [f] := by
        simp [q, stepOutcome, failedNames]
      refine ⟨?_, ?_, ?_, ?_, ?_⟩
      · intro id
        rw [hpart id, hqc, hqf]
        simp only [List.mem_append, List.mem_singleton, hmem id]
        by_cases hid : id = f <;> simp [hid, hf, hff]
      · intro id ⟨h1, h2⟩
        rw [hqc] at h1
        rcases (hmem id).mp h2 with ⟨_, hp2⟩
        exact hcp id ⟨h1, hp2⟩
      · intro id ⟨h1, h2⟩
        rw [hqc] at h1
        rw [hqf] at h2
        rcases List.mem_append.mp h2 with h2 | h2
        · exact hcf id ⟨h1, h2⟩
        · exact hfc (List.mem_singleton.mp h2 ▸ h1)
      · intro id ⟨h1, h2⟩
        rw [hqf] at h2
        rcases (hmem id).mp h1 with ⟨hne, hp1⟩
        rcases List.mem_append.mp h2 with h2 | h2
        · exact hpf id ⟨hp1, h2⟩
        · exact hne (List.mem_singleton.mp h2)
      · rw [hqp]
        exact hnd.erase f

lemma checkpoints_inv (now : String) (ids : List String) :
    ∀ (outs : List (String × Bool)) (p : BatchProgress),
      (outs.map Prod.fst).Nodup →
      (∀ f ∈ outs.map Prod.fst, f ∈ p.pending) →
      (∀ id, id ∈ ids ↔
        id ∈ p.completed ∨ id ∈ p.pending ∨ id ∈ failedNames p.failed) →
      (∀ id, ¬(id ∈ p.completed ∧ id ∈ p.pending)) →
      (∀ id, ¬(id ∈ p.completed ∧ id ∈ failedNames p.failed)) →
      (∀ id, ¬(id ∈ p.pending ∧ id ∈ failedNames p.failed)) →
      p.pending.Nodup →
      ∀ d ∈ checkpoints false now outs p,
        (∀ id, id ∈ ids ↔
          id ∈ d.completed ∨ id ∈ d.pending ∨ id ∈ failedNames d.failed)
        ∧ (∀ id, ¬(id ∈ d.completed ∧ id ∈ d.pending))
        ∧ (∀ id, ¬(id ∈ d.completed ∧ id ∈ failedNames d.failed))
        ∧ (∀ id, ¬(id ∈ d.pending ∧ id ∈ failedNames d.failed))
  | [], _, _, _, _, _, _, _, _ => by
      intro d hd
      simp [checkpoints] at hd
  | (f, s) :: rest, p, hnd, hsub, hpart, hcp, hcf, hpf, hpnd => by
      intro d hd
      have hf : f ∈ p.pending := hsub f (by simp)
      obtain ⟨hpart', hcp', hcf', hpf', hpnd'⟩ :=
        stepOutcome_inv f s now p ids hf hpart hcp hcf hpf hpnd
      rcases List.mem_cons.mp hd with h | h
      · subst h
        exact ⟨hpart', hcp', hcf', hpf'⟩
      · rw [List.map_cons] at hnd
        have hrest : (rest.map Prod.fst).Nodup := (List.nodup_cons.mp hnd).2
        have hfr : f ∉ rest.map Prod.fst := (List.nodup_cons.mp hnd).1
        have hsub' : ∀ g ∈ rest.map Prod.fst,
            g ∈ (stepOutcome false f s now p).pending := by
          intro g hg
          rw [stepOutcome_pending]
          have hgf : g ≠ f := by
            intro hgf
            subst hgf
            exact hfr hg
          exact (hpnd.mem_erase_iff).mpr ⟨hgf, hsub g (by simp [hg])⟩
        exact checkpoints_inv now ids rest (stepOutcome false f s now p)
          hrest hsub' hpart' hcp' hcf' hpf' hpnd' d h

/-- Claim C3 counterexample: a fresh 1-item batch whose only item fails.
At the persisted checkpoint the enumerated id "a" is in neither
`completed` nor `pending` (it sits only in `failed`), so it does not
appear in exactly one of {completed, pending} as the claim states. -/
theorem failed_item_in_neither_bucket :
    checkpoints false "t0" [("a", false)] (freshProgress ["a"] "t0") =
      [⟨1, [], [⟨"a", "t0", "Processing failed"⟩], [], "t0", "t0", 0⟩]
    ∧ "a" ∉
        (⟨1, [], [⟨"a", "t0", "Processing failed"⟩], [], "t0", "t0", 0⟩ :
          ProgressFileData).completed
    ∧ "a" ∉
        (⟨1, [], [⟨"a", "t0", "Processing failed"⟩], [], "t0", "t0", 0⟩ :
          ProgressFileData).pending := by
  refine ⟨?_, by decide, by decide⟩
  simp [checkpoints, stepOutcome, freshProgress, save_to_file]

/-- Claim C3 amended: at every persisted checkpoint of a fresh batch run,
`completed`, `pending` and the failed filenames are pairwise disjoint and
every enumerated id appears in at least one of the three (hence in
exactly one); a failed id sits in `failed` — not in `completed` or
`pending` — and in retry-failed mode a later success removes it from
`failed`. -/
theorem progress_checkpoint_partition (ids : List String)
    (outs : List (String × Bool)) (now : String)
    (hids : ids.Nodup) (hnd : (outs.map Prod.fst).Nodup)
    (hsub : ∀ f ∈ outs.map Prod.fst, f ∈ ids)
    (d : ProgressFileData)
    (hd : d ∈ checkpoints false now outs (freshProgress ids now)) :
    (∀ id ∈ ids,
      id ∈ d.completed ∨ id ∈ d.pending ∨ id ∈ failedNames d.failed)
    ∧ (∀ id, ¬(id ∈ d.completed ∧ id ∈ d.pending))
    ∧ (∀ id, ¬(id ∈ d.completed ∧ id ∈ failedNames d.failed))
    ∧ (∀ id, ¬(id ∈ d.pending ∧ id ∈ failedNames d.failed))
    ∧ (∀ (p : BatchProgress) (g ts : String),
        g ∉ failedNames (stepOutcome true g true ts p).failed) := by
  obtain ⟨hpart, hcp, hcf, hpf⟩ :=
    checkpoints_inv now ids outs (freshProgress ids now) hnd
      (by simpa [freshProgress] using hsub)
      (by simp [freshProgress, failedNames])
      (by simp [freshProgress])
      (by simp [freshProgress, failedNames])
      (by simp [freshProgress, failedNames])
      (by simpa [freshProgress] using hids)
      d hd
  refine ⟨fun id hid => (hpart id).mp hid, hcp, hcf, hpf, ?_⟩
  intro p g ts hg
  simp [stepOutcome, failedNames, List.mem_filter] at hg
  obtain ⟨a, ⟨_, h1⟩, h2⟩ := hg
  exact h1 h2

/-- Witness for `progress_checkpoint_partition`: a 2-item fresh batch
["a", "b"] whose first outcome completes "a"; at that checkpoint "a" is
in a bucket and never in both `completed` and `pending`. -/
theorem progress_checkpoint_partition_witness :
    ("a" ∈ (⟨2, ["a"], [], ["b"], "t", "t", 1/2⟩ :
        ProgressFileData).completed
      ∨ "a" ∈ (⟨2, ["a"], [], ["b"], "t", "t", 1/2⟩ :
        ProgressFileData).pending
      ∨ "a" ∈ failedNames (⟨2, ["a"], [], ["b"], "t", "t", 1/2⟩ :
        ProgressFileData).failed)
    ∧ ¬("a" ∈ (⟨2, ["a"], [], ["b"], "t", "t", 1/2⟩ :
        ProgressFileData).completed
      ∧ "a" ∈ (⟨2, ["a"], [], ["b"], "t", "t", 1/2⟩ :
        ProgressFileData).pending) :=
  ⟨(progress_checkpoint_partition ["a", "b"] [("a", true)] "t"
      (by decide) (by decide) (by decide) _
      (by simp [checkpoints, stepOutcome, freshProgress, save_to_file]
          )).1 "a" (by decide),
    (progress_checkpoint_partition ["a", "b"] [("a", true)] "t"
      (by decide) (by decide) (by decide) _
      (by simp [checkpoints, stepOutcome, freshProgress, save_to_file]
          )).2.1 "a"⟩

/-- Claim C8 counterexample: replaying load → mark-completed → save twice
for the same id "a" leaves two copies of "a" in the persisted completed
list — the loop appends to the `completed` list without deduplication, so
the persisted collection does not contain the id exactly once. -/
theorem mark_completed_twice_duplicates :
    (replayMark "a" "t2" (replayMark "a" "t1"
        (save_to_file (freshProgress ["a"] "t0")))).completed = ["a", "a"]
    ∧ (replayMark "a" "t2" (replayMark "a" "t1"
        (save_to_file (freshProgress ["a"] "t0")))).completed.count "a" ≠ 1 := by
  constructor <;> decide

lemma replayMark_fields (id now : String) (d : ProgressFileData) :
    (replayMark id now d).completed = d.completed ++ [id]
    ∧ (replayMark id now d).pending = d.pending.erase id
    ∧ (replayMark id now d).failed = d.failed := by
  refine ⟨?_, ?_, ?_⟩
  · simp [replayMark, save_to_file, load_from_file, stepOutcome]
  · have := stepOutcome_pending false id true now (load_from_file d)
    simpa [replayMark, save_to_file, load_from_file] using this
  · simp [replayMark, save_to_file, load_from_file, stepOutcome]

/-- Claim C8 amended: replaying load → mark-completed → save twice for
the same id appends the id to the persisted `completed` list once per
replay (the loop never deduplicates `completed`, so after two replays
the id occurs twice, not once); the `pending` collection no longer
contains the id after either replay, and save/load round-trips every
stored progress field. -/
theorem mark_completed_replay (d : ProgressFileData) (id now1 now2 : String)
    (hnd : d.pending.Nodup) :
    (replayMark id now2 (replayMark id now1 d)).completed
        = d.completed ++ [id, id]
    ∧ id ∉ (replayMark id now1 d).pending
    ∧ id ∉ (replayMark id now2 (replayMark id now1 d)).pending
    ∧ (replayMark id now2 (replayMark id now1 d)).completed.count id
        = d.completed.count id + 2
    ∧ (∀ p : BatchProgress, load_from_file (save_to_file p) = p) := by
  obtain ⟨hc1, hp1, _⟩ := replayMark_fields id now1 d
  obtain ⟨hc2, hp2, _⟩ := replayMark_fields id now2 (replayMark id now1 d)
  have hcc : (replayMark id now2 (replayMark id now1 d)).completed
      = d.completed ++ [id, id] := by
    rw [hc2, hc1]
    simp
  refine ⟨hcc, ?_, ?_, ?_, fun p => rfl⟩
  · rw [hp1]
    exact hnd.not_mem_erase
  · rw [hp2, hp1]
    exact (hnd.erase id).not_mem_erase
  · rw [hcc]
    simp [List.count_append]

/-- Witness for `mark_completed_replay` on the saved fresh 1-item
record. -/
theorem mark_completed_replay_witness :
    (replayMark "a" "t2" (replayMark "a" "t1"
        (save_to_file (freshProgress ["a"] "t0")))).completed
      = (save_to_file (freshProgress ["a"] "t0")).completed ++ ["a", "a"]
    ∧ "a" ∉ (replayMark "a" "t1"
        (save_to_file (freshProgress ["a"] "t0"))).pending
    ∧ load_from_file (save_to_file (freshProgress ["a"] "t0")) =
        freshProgress ["a"] "t0" :=
  ⟨(mark_completed_replay (save_to_file (freshProgress ["a"] "t0"))
      "a" "t1" "t2" (by decide)).1,
    (mark_completed_replay (save_to_file (freshProgress ["a"] "t0"))
      "a" "t1" "t2" (by decide)).2.1,
    (mark_completed_replay (save_to_file (freshProgress ["a"] "t0"))
      "a" "t1" "t2" (by decide)).2.2.2.2 (freshProgress ["a"] "t0")⟩

/-! ## Ground-truth comparison
(src/helpers&tests/ground_truth_validation.py lines 49-125) -/

/-- A metadata value as the comparison sees it after the duck-typed
unwrapping (`field.value`, and `.value` once more for enum members):
null, a string, or an integer (years). -/
inductive FieldVal where
  | null
  | str (s : String)
  | int (n : Int)
deriving Repr, DecidableEq

/-- Python `str()` on the unwrapped value. -/
def pyStr : FieldVal → String
  | .null => "None"
  | .str s => s
  | .int n => toString n

/-- Python truthiness of the unwrapped value (`None`, `""` and `0` are
falsy). -/
def pyTruthy : FieldVal → Bool
  | .null => false
  | .str s => decide (s ≠ "")
  | .int n => decide (n ≠ 0)

/-- Python `str.strip()`: drop whitespace from both ends. -/
def pyStrip (s : String) : String :=
  ⟨((s.data.dropWhile Char.isWhitespace).reverse.dropWhile
      Char.isWhitespace).reverse⟩

/-- `ref_norm = str(reference_value).strip().lower()` (line 96). -/
def normRef (v : FieldVal) : String :=
  pyLower (pyStrip (pyStr v))

/-- `ext_norm = str(extracted_value).strip().lower() if extracted_value
else ""` (line 103); the enum branch at line 100 normalizes the member's
string value identically (enum member strings are never falsy). -/
def normExt (v : FieldVal) : String :=
  if pyTruthy v then pyLower (pyStrip (pyStr v)) else ""

/-- Extraction-side values of the eight compared fields, in the order of
`fields_to_compare` (line 83). -/
structure ExtractedMeta where
  title : FieldVal
  creator : FieldVal
  year : FieldVal
  doc_type : FieldVal
  health_topic : FieldVal
  country : FieldVal
  language : FieldVal
  level : FieldVal
deriving Repr, DecidableEq

/-- Reference-side values of the same fields; `null` is a missing
(None/NaN) reference value. -/
structure ReferenceMeta where
  title : FieldVal
  creator : FieldVal
  year : FieldVal
  doc_type : FieldVal
  health_topic : FieldVal
  country : FieldVal
  language : FieldVal
  level : FieldVal
deriving Repr, DecidableEq

/-- The loop's traversal order: each compared field name with the
extracted and the reference value. -/
def fieldTriples (ext : ExtractedMeta) (ref : ReferenceMeta) :
    List (String × FieldVal × FieldVal) :=
  [("title", ext.title, ref.title),
   ("creator", ext.creator, ref.creator),
   ("year", ext.year, ref.year),
   ("doc_type", ext.doc_type, ref.doc_type),
   ("health_topic", ext.health_topic, ref.health_topic),
   ("country", ext.country, ref.country),
   ("language", ext.language, ref.language),
   ("level", ext.level, ref.level)]

/-- Accumulator of the comparison loop: the keys of the `matches` and
`discrepancies` dicts (their extracted/reference/confidence payloads do
not affect the claim) and the `correct_fields`/`total_fields`
counters. -/
structure CompAcc where
  matchedFields : List String
  discrepancies : List String
  correct : Nat
  total : Nat
deriving Repr, DecidableEq

/-- One iteration of the comparison loop (lines 87-120): a field whose
reference value is None is skipped entirely; otherwise `total_fields`
grows and the normalized values decide the bucket. -/
def compareStep (acc : CompAcc) (t : String × FieldVal × FieldVal) :
    CompAcc :=
  if t.2.2 ≠ FieldVal.null then
    if normRef t.2.2 = normExt t.2.1 then
      ⟨acc.matchedFields ++ [t.1], acc.discrepancies, acc.correct + 1,
        acc.total + 1⟩
    else
      ⟨acc.matchedFields, acc.discrepancies ++ [t.1], acc.correct,
        acc.total + 1⟩
  else acc

/-- Result of `compare_with_ground_truth`: `status`, bucket keys and
`overall_accuracy` (`none` models the `accuracy: None` of the
no-reference dict). -/
structure CompareResult where
  status : String
  matchedFields : List String
  discrepancies : List String
  overall_accuracy : Option ℚ
deriving Repr, DecidableEq

/-- `compare_with_ground_truth` after filename-variant lookup: a `none`
reference is the no-match branch (lines 71-72); a matched reference runs
the field loop and sets
`overall_accuracy = correct/total if total_fields > 0 else 0.0`
(line 123) with status "compared". -/
def compare_with_ground_truth (ext : ExtractedMeta) :
    Option ReferenceMeta → CompareResult
  | none => ⟨"no_reference", [], [], none⟩
  | some ref =>
      let r := (fieldTriples ext ref).foldl compareStep ⟨[], [], 0, 0⟩
      ⟨"compared", r.matchedFields, r.discrepancies,
        some (if 0 < r.total then (r.correct : ℚ) / (r.total : ℚ) else 0)⟩

/-- The field's reference value is present. -/
def refGiven (t : String × FieldVal × FieldVal) : Bool :=
  decide (t.2.2 ≠ FieldVal.null)

/-- The two sides agree after normalization. -/
def agreeNorm (t : String × FieldVal × FieldVal) : Bool :=
  decide (normRef t.2.2 = normExt t.2.1)

/-! ### Helper lemmas for the comparison fold -/

lemma compareFold :
    ∀ (ts : List (String × FieldVal × FieldVal)) (acc : CompAcc),
      ts.foldl compareStep acc =
        ⟨acc.matchedFields ++
            (ts.filter (fun t => refGiven t && agreeNorm t)).map Prod.fst,
          acc.discrepancies ++
            (ts.filter (fun t => refGiven t && !agreeNorm t)).map Prod.fst,
          acc.correct +
            (ts.filter (fun t => refGiven t && agreeNorm t)).length,
          acc.total + (ts.filter refGiven).length⟩
  | [], acc => by simp [List.filter]
  | t :: ts, acc => by
      rw [List.foldl_cons, compareFold ts (compareStep acc t)]
      by_cases hg : refGiven t
      · by_cases ha : agreeNorm t
        · have hg' : t.2.2 ≠ FieldVal.null := by simpa [refGiven] using hg
          have ha' : normRef t.2.2 = normExt t.2.1 := by
            simpa [agreeNorm] using ha
          simp [compareStep, hg', ha', List.filter_cons, hg, ha]
          omega
        · have hg' : t.2.2 ≠ FieldVal.null := by simpa [refGiven] using hg
          have ha' : ¬ (normRef t.2.2 = normExt t.2.1) := by
            simpa [agreeNorm] using ha
          simp [compareStep, hg', ha', List.filter_cons, hg, ha]
          omega
      · have hg' : ¬ (t.2.2 ≠ FieldVal.null) := by simpa [refGiven] using hg
        simp [compareStep, hg', List.filter_cons, hg]

lemma filter_split_length (ts : List (String × FieldVal × FieldVal)) :
    (ts.filter (fun t => refGiven t && agreeNorm t)).length
      + (ts.filter (fun t => refGiven t && !agreeNorm t)).length
      = (ts.filter refGiven).length := by
  induction ts with
  | nil => simp
  | cons t ts ih =>
      by_cases hg : refGiven t
      · by_cases ha : agreeNorm t <;>
          simp [List.filter_cons, hg, ha] <;> omega
      · simp [List.filter_cons, hg, ih]

lemma mem_map_fst_filter_iff (p : (String × FieldVal × FieldVal) → Bool)
    (ts : List (String × FieldVal × FieldVal))
    (hnd : (ts.map Prod.fst).Nodup)
    (t : String × FieldVal × FieldVal) (ht : t ∈ ts) :
    t.1 ∈ (ts.filter p).map Prod.fst ↔ p t = true := by
  constructor
  · intro h
    obtain ⟨t', ht', hfst⟩ := List.mem_map.mp h
    have ht'm : t' ∈ ts := List.mem_of_mem_filter ht'
    have : t' = t := List.inj_on_of_nodup_map hnd ht'm ht hfst
    subst this
    exact (List.mem_filter.mp ht').2
  · intro h
    exact List.mem_map.mpr ⟨t, List.mem_filter.mpr ⟨ht, h⟩, rfl⟩

lemma fieldTriples_names (ext : ExtractedMeta) (ref : ReferenceMeta) :
    (fieldTriples ext ref).map Prod.fst =
      ["title", "creator", "year", "doc_type", "health_topic",
       "country", "language", "level"] := rfl

lemma compare_result_eq (ext : ExtractedMeta) (ref : ReferenceMeta) :
    (compare_with_ground_truth ext (some ref)).matchedFields =
      ((fieldTriples ext ref).filter
        (fun t => refGiven t && agreeNorm t)).map Prod.fst
    ∧ (compare_with_ground_truth ext (some ref)).discrepancies =
      ((fieldTriples ext ref).filter
        (fun t => refGiven t && !agreeNorm t)).map Prod.fst
    ∧ (compare_with_ground_truth ext (some ref)).status = "compared"
    ∧ (compare_with_ground_truth ext (some ref)).overall_accuracy =
      some (if 0 < (compare_with_ground_truth ext (some ref)).matchedFields.length
            + (compare_with_ground_truth ext (some ref)).discrepancies.length
        then ((compare_with_ground_truth ext (some ref)).matchedFields.length : ℚ)
          / (((compare_with_ground_truth ext (some ref)).matchedFields.length : ℚ)
            + ((compare_with_ground_truth ext (some ref)).discrepancies.length : ℚ))
        else 0) := by
  have hfold := compareFold (fieldTriples ext ref) ⟨[], [], 0, 0⟩
  have hm : (compare_with_ground_truth ext (some ref)).matchedFields =
      ((fieldTriples ext ref).filter
        (fun t => refGiven t && agreeNorm t)).map Prod.fst := by
    simp [compare_with_ground_truth, hfold]
  have hd : (compare_with_ground_truth ext (some ref)).discrepancies =
      ((fieldTriples ext ref).filter
        (fun t => refGiven t && !agreeNorm t)).map Prod.fst := by
    simp [compare_with_ground_truth, hfold]
  have htot : ((fieldTriples ext ref).filter refGiven).length =
      (compare_with_ground_truth ext (some ref)).matchedFields.length
      + (compare_with_ground_truth ext (some ref)).discrepancies.length := by
    rw [hm, hd, List.length_map, List.length_map]
    exact (filter_split_length (fieldTriples ext ref)).symm
  refine ⟨hm, hd, rfl, ?_⟩
  have hcor : ((fieldTriples ext ref).filter
      (fun t => refGiven t && agreeNorm t)).length =
      (compare_with_ground_truth ext (some ref)).matchedFields.length := by
    rw [hm, List.length_map]
  calc (compare_with_ground_truth ext (some ref)).overall_accuracy
      = some (if 0 < ((fieldTriples ext ref).filter refGiven).length
          then (((fieldTriples ext ref).filter
              (fun t => refGiven t && agreeNorm t)).length : ℚ)
            / (((fieldTriples ext ref).filter refGiven).length : ℚ)
          else 0) := by
        simp [compare_with_ground_truth, hfold]
    _ = _ := by
        rw [htot, hcor]
        push_cast
        rfl

/-- Claim C6 counterexample: for a matched reference record whose
compared fields are all null the accuracy denominator is zero, yet the
code reports `status = "compared"` with `overall_accuracy = 0.0` — not
the "no reference" report the claim prescribes (the code only emits
`no_reference` when no filename variant matches a reference row). -/
theorem zero_denominator_reports_compared :
    compare_with_ground_truth
        ⟨.str "Plan", .null, .int 2020, .null, .null, .null, .null, .null⟩
        (some ⟨.null, .null, .null, .null, .null, .null, .null, .null⟩)
      = ⟨"compared", [], [], some 0⟩
    ∧ ("compared" : String) ≠ "no_reference" := by
  exact ⟨by decide, by decide⟩

/-- Claim C6 amended: for every extraction and matched reference record,
each field with a non-null reference value lands in exactly one of
matches (normalized values equal) and discrepancies (normalized values
differ); a field with a null reference value is in neither bucket and is
excluded from the accuracy denominator; `overall_accuracy` equals
`|matches| / (|matches| + |discrepancies|)` when the denominator is
positive and `0.0` (status still "compared", not "no reference") when it
is zero; the claim's example yields matches = {title},
discrepancies = {year}, country in neither, accuracy 0.5. -/
theorem comparison_buckets (ext : ExtractedMeta) (ref : ReferenceMeta) :
    (∀ t ∈ fieldTriples ext ref,
      (t.2.2 ≠ FieldVal.null →
        ((t.1 ∈ (compare_with_ground_truth ext (some ref)).matchedFields ↔
            normRef t.2.2 = normExt t.2.1)
          ∧ (t.1 ∈ (compare_with_ground_truth ext (some ref)).discrepancies ↔
            ¬ normRef t.2.2 = normExt t.2.1)))
      ∧ (t.2.2 = FieldVal.null →
          t.1 ∉ (compare_with_ground_truth ext (some ref)).matchedFields
          ∧ t.1 ∉ (compare_with_ground_truth ext (some ref)).discrepancies))
    ∧ (compare_with_ground_truth ext (some ref)).overall_accuracy =
      some (if 0 < (compare_with_ground_truth ext (some ref)).matchedFields.length
            + (compare_with_ground_truth ext (some ref)).discrepancies.length
        then ((compare_with_ground_truth ext (some ref)).matchedFields.length : ℚ)
          / (((compare_with_ground_truth ext (some ref)).matchedFields.length : ℚ)
            + ((compare_with_ground_truth ext (some ref)).discrepancies.length : ℚ))
        else 0)
    ∧ (compare_with_ground_truth ext (some ref)).status = "compared"
    ∧ ((compare_with_ground_truth
          ⟨.str "Plan", .null, .int 2020, .null, .null, .null, .null, .null⟩
          (some ⟨.str "Plan", .null, .int 2021, .null, .null, .null, .null,
            .null⟩)).matchedFields = ["title"]
      ∧ (compare_with_ground_truth
          ⟨.str "Plan", .null, .int 2020, .null, .null, .null, .null, .null⟩
          (some ⟨.str "Plan", .null, .int 2021, .null, .null, .null, .null,
            .null⟩)).discrepancies = ["year"]
      ∧ (compare_with_ground_truth
          ⟨.str "Plan", .null, .int 2020, .null, .null, .null, .null, .null⟩
          (some ⟨.str "Plan", .null, .int 2021, .null, .null, .null, .null,
            .null⟩)).overall_accuracy = some (1 / 2)) := by
  obtain ⟨hm, hd, hstat, hacc⟩ := compare_result_eq ext ref
  have hnd : ((fieldTriples ext ref).map Prod.fst).Nodup := by
    rw [fieldTriples_names]
    decide
  refine ⟨?_, hacc, hstat, ?_, ?_, ?_⟩
  · intro t ht
    constructor
    · intro hgiven
      have hg : refGiven t = true := by
        simp [refGiven, hgiven]
      constructor
      · rw [hm, mem_map_fst_filter_iff _ _ hnd t ht]
        simp [hg, agreeNorm]
      · rw [hd, mem_map_fst_filter_iff _ _ hnd t ht]
        simp [hg, agreeNorm]
    · intro hnull
      have hg : refGiven t = false := by
        simp [refGiven, hnull]
      constructor
      · rw [hm, mem_map_fst_filter_iff _ _ hnd t ht]
        simp [hg]
      · rw [hd, mem_map_fst_filter_iff _ _ hnd t ht]
        simp [hg]
  · decide
  · decide
  · obtain ⟨_, _, _, hacc'⟩ := compare_result_eq
      ⟨.str "Plan", .null, .int 2020, .null, .null, .null, .null, .null⟩
      ⟨.str "Plan", .null, .int 2021, .null, .null, .null, .null, .null⟩
    rw [hacc']
    have h1 : (compare_with_ground_truth
        ⟨.str "Plan", .null, .int 2020, .null, .null, .null, .null, .null⟩
        (some ⟨.str "Plan", .null, .int 2021, .null, .null, .null, .null,
          .null⟩)).matchedFields = ["title"] := by decide
    have h2 : (compare_with_ground_truth
        ⟨.str "Plan", .null, .int 2020, .null, .null, .null, .null, .null⟩
        (some ⟨.str "Plan", .null, .int 2021, .null, .null, .null, .null,
          .null⟩)).discrepancies = ["year"] := by decide
    rw [h1, h2]
    norm_num

/-- Witness for `comparison_buckets`: the claim's example, with the
per-field implications instantiated at the `title` (non-null reference)
and `country` (null reference) triples. -/
theorem comparison_buckets_witness :
    (("title" ∈ (compare_with_ground_truth
          ⟨.str "Plan", .null, .int 2020, .null, .null, .null, .null, .null⟩
          (some ⟨.str "Plan", .null, .int 2021, .null, .null, .null, .null,
            .null⟩)).matchedFields ↔
        normRef (.str "Plan") = normExt (.str "Plan"))
      ∧ ("title" ∈ (compare_with_ground_truth
          ⟨.str "Plan", .null, .int 2020, .null, .null, .null, .null, .null⟩
          (some ⟨.str "Plan", .null, .int 2021, .null, .null, .null, .null,
            .null⟩)).discrepancies ↔
        ¬ normRef (.str "Plan") = normExt (.str "Plan")))
    ∧ ("country" ∉ (compare_with_ground_truth
          ⟨.str "Plan", .null, .int 2020, .null, .null, .null, .null, .null⟩
          (some ⟨.str "Plan", .null, .int 2021, .null, .null, .null, .null,
            .null⟩)).matchedFields
      ∧ "country" ∉ (compare_with_ground_truth
          ⟨.str "Plan", .null, .int 2020, .null, .null, .null, .null, .null⟩
          (some ⟨.str "Plan", .null, .int 2021, .null, .null, .null, .null,
            .null⟩)).discrepancies) :=
  ⟨((comparison_buckets
      ⟨.str "Plan", .null, .int 2020, .null, .null, .null, .null, .null⟩
      ⟨.str "Plan", .null, .int 2021, .null, .null, .null, .null, .null⟩).1
      ("title", .str "Plan", .str "Plan") (by decide)).1 (by decide),
    ((comparison_buckets
      ⟨.str "Plan", .null, .int 2020, .null, .null, .null, .null, .null⟩
      ⟨.str "Plan", .null, .int 2021, .null, .null, .null, .null, .null⟩).1
      ("country", .null, .null) (by decide)).2 (by decide)⟩

/-! ## Export with append-mode dedup (src/cli.py lines 597-687) -/

/-- One export row: the dedup key columns `filename` and `timestamp`,
with the remaining columns collapsed into an opaque payload. -/
structure ExportRow where
  filename : String
  timestamp : String
  payload : String
deriving Repr, DecidableEq

/-- The dedup key of
`drop_duplicates(subset=['filename', 'timestamp'])`. -/
def rowKey (r : ExportRow) : String × String :=
  (r.filename, r.timestamp)

/-- pandas `drop_duplicates(subset=['filename','timestamp'],
keep='last')`: a row survives iff its key does not occur again later in
the frame; the surviving rows keep their order. -/
def dropDupKeepLast : List ExportRow → List ExportRow
  | [] => []
  | r :: rs =>
      if rs.any (fun r2 => decide (rowKey r2 = rowKey r)) then
        dropDupKeepLast rs
      else
        r :: dropDupKeepLast rs

/-- `BatchResults.export_results` in append mode onto an existing file
(src/cli.py lines 665-677): read the existing rows, concatenate the new
rows, and drop duplicate `(filename, timestamp)` keys keeping the
last. -/
def export_append (existing newRows : List ExportRow) : List ExportRow :=
  dropDupKeepLast (existing ++ newRows)

/-- The last row of the list carrying key `k`, if any. -/
def lastWithKey (k : String × String) : List ExportRow → Option ExportRow
  | [] => none
  | r :: rs =>
      match lastWithKey k rs with
      | some r' => some r'
      | none => if rowKey r = k then some r else none

/-! ### Helper lemmas for the export dedup -/

lemma dropDupKeepLast_sub (l : List ExportRow) :
    ∀ r ∈ dropDupKeepLast l, r ∈ l := by
  induction l with
  | nil => simp [dropDupKeepLast]
  | cons x xs ih =>
      intro r hr
      by_cases h : (xs.any fun r2 => decide (rowKey r2 = rowKey x)) = true
      · simp only [dropDupKeepLast, if_pos h] at hr
        exact List.mem_cons_of_mem x (ih r hr)
      · simp only [dropDupKeepLast, if_neg h] at hr
        rcases List.mem_cons.mp hr with h' | h'
        · exact h' ▸ List.mem_cons_self x xs
        · exact List.mem_cons_of_mem x (ih r h')

lemma dropDupKeepLast_keys_nodup (l : List ExportRow) :
    ((dropDupKeepLast l).map rowKey).Nodup := by
  induction l with
  | nil => simp [dropDupKeepLast]
  | cons x xs ih =>
      by_cases h : (xs.any fun r2 => decide (rowKey r2 = rowKey x)) = true
      · simpa only [dropDupKeepLast, if_pos h] using ih
      · simp only [dropDupKeepLast, if_neg h, List.map_cons, List.nodup_cons]
        refine ⟨?_, ih⟩
        intro hmem
        obtain ⟨r', hr', hk⟩ := List.mem_map.mp hmem
        have hr'xs : r' ∈ xs := dropDupKeepLast_sub xs r' hr'
        have hany : ¬ ∃ r2 ∈ xs, rowKey r2 = rowKey x := by
          simpa [List.any_eq_true] using h
        exact hany ⟨r', hr'xs, hk⟩

lemma dropDupKeepLast_keys_mem (l : List ExportRow) (k : String × String) :
    k ∈ (dropDupKeepLast l).map rowKey ↔ k ∈ l.map rowKey := by
  induction l with
  | nil => simp [dropDupKeepLast]
  | cons x xs ih =>
      by_cases h : (xs.any fun r2 => decide (rowKey r2 = rowKey x)) = true
      · simp only [dropDupKeepLast, if_pos h, List.map_cons, List.mem_cons]
        rw [ih]
        constructor
        · exact Or.inr
        · rintro (hk | hk)
          · have hex : ∃ r2 ∈ xs, rowKey r2 = rowKey x := by
              simpa [List.any_eq_true] using h
            obtain ⟨r2, hr2, hk2⟩ := hex
            subst hk
            exact List.mem_map.mpr ⟨r2, hr2, hk2⟩
          · exact hk
      · simp only [dropDupKeepLast, if_neg h, List.map_cons, List.mem_cons]
        rw [ih]

lemma lastWithKey_none (k : String × String) (l : List ExportRow)
    (h : ∀ x ∈ l, rowKey x ≠ k) : lastWithKey k l = none := by
  induction l with
  | nil => rfl
  | cons x xs ih =>
      simp only [lastWithKey]
      rw [ih (fun y hy => h y (List.mem_cons_of_mem x hy))]
      simp [h x (List.mem_cons_self x xs)]

lemma dropDupKeepLast_last (l : List ExportRow) :
    ∀ r ∈ dropDupKeepLast l, lastWithKey (rowKey r) l = some r := by
  induction l with
  | nil => simp [dropDupKeepLast]
  | cons x xs ih =>
      intro r hr
      by_cases h : (xs.any fun r2 => decide (rowKey r2 = rowKey x)) = true
      · simp only [dropDupKeepLast, if_pos h] at hr
        have hlast := ih r hr
        simp only [lastWithKey, hlast]
      · simp only [dropDupKeepLast, if_neg h] at hr
        have hnone : ∀ y ∈ xs, rowKey y ≠ rowKey x := by
          simpa [List.any_eq_true] using h
        rcases List.mem_cons.mp hr with h' | h'
        · subst h'
          simp only [lastWithKey]
          rw [lastWithKey_none (rowKey r) xs hnone]
          simp
        · have hlast := ih r h'
          simp only [lastWithKey, hlast]

/-- Claim C7: append-mode export yields the union of old and new rows
deduplicated by the (filename, timestamp) key keeping the latest row:
the result's keys are pairwise distinct (so re-running an export after a
resumed batch never duplicates earlier rows), a key survives iff it
occurs among old or new rows, each surviving row is the last row bearing
its key in old ++ new, and exporting 5 rows then 3 rows with 1
overlapping key yields exactly 7 rows — the overlapping key keeping the
newer payload. -/
theorem export_append_dedup (existing newRows : List ExportRow) :
    ((export_append existing newRows).map rowKey).Nodup
    ∧ (∀ k, k ∈ (export_append existing newRows).map rowKey ↔
        k ∈ (existing ++ newRows).map rowKey)
    ∧ (∀ r ∈ export_append existing newRows,
        lastWithKey (rowKey r) (existing ++ newRows) = some r)
    ∧ (export_append
        [⟨"a", "1", "x1"⟩, ⟨"b", "1", "x2"⟩, ⟨"c", "1", "x3"⟩,
         ⟨"d", "1", "x4"⟩, ⟨"e", "1", "x5"⟩]
        [⟨"a", "1", "y1"⟩, ⟨"f", "1", "y2"⟩, ⟨"g", "1", "y3"⟩]).length = 7
    ∧ export_append
        [⟨"a", "1", "x1"⟩, ⟨"b", "1", "x2"⟩, ⟨"c", "1", "x3"⟩,
         ⟨"d", "1", "x4"⟩, ⟨"e", "1", "x5"⟩]
        [⟨"a", "1", "y1"⟩, ⟨"f", "1", "y2"⟩, ⟨"g", "1", "y3"⟩] =
        [⟨"b", "1", "x2"⟩, ⟨"c", "1", "x3"⟩, ⟨"d", "1", "x4"⟩,
         ⟨"e", "1", "x5"⟩, ⟨"a", "1", "y1"⟩, ⟨"f", "1", "y2"⟩,
         ⟨"g", "1", "y3"⟩] :=
  ⟨dropDupKeepLast_keys_nodup _,
    fun k => dropDupKeepLast_keys_mem _ k,
    fun r hr => dropDupKeepLast_last _ r hr,
    by decide, by decide⟩

/-! ## RateLimiter (src/cli.py lines 324-362; src/utils.py lines 11-84
has the identical request-window logic plus an optional token budget) -/

/-- Python `min` over the (nonempty) request list.  The `[]` value is
never reached under `0 < max_requests_per_minute`; Python would raise
there. -/
def listMin : List ℚ → ℚ
  | [] => 0
  | [x] => x
  | x :: y :: xs => min x (listMin (y :: xs))

/-- The window prune
`[req_time for req_time in self._requests if req_time > cutoff]` with
`cutoff = now - 60.0`. -/
def pruneWindow (now : ℚ) (reqs : List ℚ) : List ℚ :=
  reqs.filter (fun t => decide (now - 60 < t))

/-- `RateLimiter.wait_if_needed` (src/cli.py lines 335-354).  The lock
makes every call atomic, so any multi-threaded execution is a sequence
of calls.  Prune the window; if it already holds
`max_requests_per_minute` admissions, compute
`60 - (now - oldest) + 0.1` and return it when positive without
recording; otherwise record `now` and return 0. -/
def wait_if_needed (maxReq : Nat) (now : ℚ) (reqs : List ℚ) :
    ℚ × List ℚ :=
  let pruned := pruneWindow now reqs
  if maxReq ≤ pruned.length then
    let waitTime := 60 - (now - listMin pruned) + 1 / 10
    if 0 < waitTime then (waitTime, pruned)
    else (0, pruned ++ [now])
  else (0, pruned ++ [now])

/-- A sequence of `wait_if_needed` calls at the given times: the
(call time, returned wait) pairs and the final window. -/
def runCalls (maxReq : Nat) (reqs : List ℚ) :
    List ℚ → List (ℚ × ℚ) × List ℚ
  | [] => ([], reqs)
  | t :: ts =>
      let p := wait_if_needed maxReq t reqs
      let q := runCalls maxReq p.2 ts
      ((t, p.1) :: q.1, q.2)

/-- Number of timestamps inside the trailing 60-second window ending at
`t`. -/
def windowCount (t : ℚ) (l : List ℚ) : Nat :=
  (l.filter (fun x => decide (t - 60 < x) && decide (x ≤ t))).length

/-- Number of calls that returned wait 0 whose call time lies in the
trailing 60-second window ending at `t`. -/
def zeroCallsIn (res : List (ℚ × ℚ)) (t : ℚ) : Nat :=
  windowCount t ((res.filter (fun p => decide (p.2 = 0))).map Prod.fst)

/-- Proof-side reformulation of the admission loop that keeps the whole
admission history instead of the pruned window: the prune of the history
at the call time agrees with the prune of the retained window, so both
make the same decisions. -/
def admittedH (maxReq : Nat) (hist : List ℚ) : List ℚ → List ℚ
  | [] => []
  | t :: ts =>
      if (pruneWindow t hist).length < maxReq then
        t :: admittedH maxReq (hist ++ [t]) ts
      else
        admittedH maxReq hist ts

/-! ### Helper lemmas for the rate limiter -/

lemma listMin_mem : ∀ l : List ℚ, l ≠ [] → listMin l ∈ l
  | [], h => absurd rfl h
  | [x], _ => by simp [listMin]
  | x :: y :: xs, _ => by
      rcases min_choice x (listMin (y :: xs)) with h | h
      · rw [show listMin (x :: y :: xs) = min x (listMin (y :: xs)) from rfl,
          h]
        exact List.mem_cons_self x (y :: xs)
      · have hm := listMin_mem (y :: xs) (by simp)
        rw [show listMin (x :: y :: xs) = min x (listMin (y :: xs)) from rfl,
          h]
        exact List.mem_cons_of_mem x hm

lemma mem_pruneWindow {now x : ℚ} {l : List ℚ} :
    x ∈ pruneWindow now l ↔ x ∈ l ∧ now - 60 < x := by
  simp [pruneWindow, List.mem_filter]

lemma pruneWindow_pruneWindow (u v : ℚ) (huv : u ≤ v) (s : List ℚ) :
    pruneWindow v (pruneWindow u s) = pruneWindow v s := by
  rw [pruneWindow, pruneWindow, pruneWindow, List.filter_filter]
  apply List.filter_congr
  intro x _
  by_cases hv : v - 60 < x
  · have hu : u - 60 < x := lt_of_le_of_lt (by linarith) hv
    simp [hv, hu]
  · simp [hv]

lemma pruneWindow_append (now : ℚ) (a b : List ℚ) :
    pruneWindow now (a ++ b) = pruneWindow now a ++ pruneWindow now b := by
  simp [pruneWindow]

lemma wait_if_needed_admit (maxReq : Nat) (now : ℚ) (reqs : List ℚ)
    (hlt : (pruneWindow now reqs).length < maxReq) :
    wait_if_needed maxReq now reqs = (0, pruneWindow now reqs ++ [now]) := by
  rw [wait_if_needed, if_neg (by omega)]

lemma wait_if_needed_reject (maxReq : Nat) (now : ℚ) (reqs : List ℚ)
    (hmax : 0 < maxReq)
    (hge : maxReq ≤ (pruneWindow now reqs).length) :
    wait_if_needed maxReq now reqs =
      (60 - (now - listMin (pruneWindow now reqs)) + 1 / 10,
        pruneWindow now reqs)
    ∧ 0 < 60 - (now - listMin (pruneWindow now reqs)) + 1 / 10 := by
  have hne : pruneWindow now reqs ≠ [] := by
    intro h
    rw [h] at hge
    simp at hge
    omega
  have hmem : listMin (pruneWindow now reqs) ∈ pruneWindow now reqs :=
    listMin_mem _ hne
  have hgt : now - 60 < listMin (pruneWindow now reqs) :=
    (mem_pruneWindow.mp hmem).2
  have hpos : 0 < 60 - (now - listMin (pruneWindow now reqs)) + 1 / 10 := by
    linarith
  refine ⟨?_, hpos⟩
  rw [wait_if_needed, if_pos hge, if_pos hpos]

lemma length_filter_le_filter (l : List ℚ) (p q : ℚ → Bool)
    (h : ∀ x, p x = true → q x = true) :
    (l.filter p).length ≤ (l.filter q).length := by
  induction l with
  | nil => simp
  | cons x xs ih =>
      by_cases hx : p x = true
      · rw [List.filter_cons_of_pos hx, List.filter_cons_of_pos (h x hx)]
        simpa using ih
      · rw [List.filter_cons_of_neg (by simpa using hx)]
        by_cases hq : q x = true
        · rw [List.filter_cons_of_pos hq]
          exact Nat.le_trans ih (by simp)
        · rw [List.filter_cons_of_neg (by simpa using hq)]
          exact ih

lemma windowCount_append (t : ℚ) (a b : List ℚ) :
    windowCount t (a ++ b) = windowCount t a + windowCount t b := by
  simp [windowCount, List.filter_append]

/-- Zero-wait call times of a run agree with the history-keeping
admission loop. -/
lemma runCalls_zeros (maxReq : Nat) (hmax : 0 < maxReq) :
    ∀ (ts s hist : List ℚ), ts.Sorted (· ≤ ·) →
      (∀ v ∈ ts, pruneWindow v s = pruneWindow v hist) →
      ((runCalls maxReq s ts).1.filter
          (fun p => decide (p.2 = 0))).map Prod.fst
        = admittedH maxReq hist ts
  | [], s, hist, _, _ => by simp [runCalls, admittedH]
  | t :: ts, s, hist, hsort, hagree => by
      have hsort' : ts.Sorted (· ≤ ·) := (List.sorted_cons.mp hsort).2
      have hts : ∀ v ∈ ts, t ≤ v := (List.sorted_cons.mp hsort).1
      have hts0 : pruneWindow t s = pruneWindow t hist :=
        hagree t (List.mem_cons_self t ts)
      by_cases hadm : (pruneWindow t hist).length < maxReq
      · have hstep := wait_if_needed_admit maxReq t s (hts0 ▸ hadm)
        have hagree' : ∀ v ∈ ts,
            pruneWindow v (pruneWindow t s ++ [t]) =
              pruneWindow v (hist ++ [t]) := by
          intro v hv
          rw [pruneWindow_append, pruneWindow_append,
            pruneWindow_pruneWindow t v (hts v hv), hagree v (by simp [hv])]
        have ih := runCalls_zeros maxReq hmax ts (pruneWindow t s ++ [t])
          (hist ++ [t]) hsort' hagree'
        simp only [runCalls, hstep, admittedH, if_pos hadm, List.filter_cons,
          decide_True, List.map_cons]
        simp [ih]
      · have hge : maxReq ≤ (pruneWindow t s).length := by
          rw [hts0]
          omega
        obtain ⟨hstep, hpos⟩ := wait_if_needed_reject maxReq t s hmax hge
        have hagree' : ∀ v ∈ ts,
            pruneWindow v (pruneWindow t s) = pruneWindow v hist := by
          intro v hv
          rw [pruneWindow_pruneWindow t v (hts v hv), hagree v (by simp [hv])]
        have ih := runCalls_zeros maxReq hmax ts (pruneWindow t s) hist
          hsort' hagree'
        have hzero : ¬ (60 - (t - listMin (pruneWindow t s)) + 1 / 10 = 0) :=
          ne_of_gt hpos
        simp only [runCalls, hstep, admittedH, List.filter_cons,
          decide_eq_true_eq, hzero, decide_False]
        rw [if_neg hadm]
        exact ih

/-- The history-keeping admission loop never lets any trailing 60-second
window hold more than `maxReq` admissions. -/
lemma admittedH_bound (maxReq : Nat) :
    ∀ (ts hist : List ℚ),
      (∀ t, windowCount t hist ≤ maxReq) →
      ∀ t, windowCount t (hist ++ admittedH maxReq hist ts) ≤ maxReq
  | [], hist, hw, t => by
      simpa [admittedH] using hw t
  | u :: ts, hist, hw, t => by
      by_cases hadm : (pruneWindow u hist).length < maxReq
      · have hw' : ∀ v, windowCount v (hist ++ [u]) ≤ maxReq := by
          intro v
          rw [windowCount_append]
          by_cases hin : v - 60 < u ∧ u ≤ v
          · have hmono : windowCount v hist ≤ (pruneWindow u hist).length := by
              simp only [windowCount, pruneWindow]
              refine length_filter_le_filter hist _ _ (fun x hx => ?_)
              simp only [Bool.and_eq_true, decide_eq_true_eq] at hx
              simp only [decide_eq_true_eq]
              linarith [hx.1, hin.2]
            have hcnt1 : windowCount v [u] ≤ 1 := by
              simp only [windowCount, List.filter]
              split <;> simp
            omega
          · have hz : windowCount v [u] = 0 := by
              simp only [windowCount]
              rw [List.filter_cons_of_neg, List.filter_nil]
              · rfl
              · simp only [Bool.and_eq_true, decide_eq_true_eq]
                exact hin
            have := hw v
            omega
        have hrec := admittedH_bound maxReq ts (hist ++ [u]) hw' t
        rw [show admittedH maxReq hist (u :: ts)
            = u :: admittedH maxReq (hist ++ [u]) ts from by
          simp [admittedH, hadm]]
        rw [show hist ++ u :: admittedH maxReq (hist ++ [u]) ts
            = (hist ++ [u]) ++ admittedH maxReq (hist ++ [u]) ts from by
          simp]
        exact hrec
      · have hrec := admittedH_bound maxReq ts hist hw t
        simpa [admittedH, if_neg hadm] using hrec

/-- Claim C1: for every (lock-serialized) sequence of `wait_if_needed`
calls at nondecreasing times, the number of calls returning 0 inside any
trailing 60-second window never exceeds `max_requests_per_minute`; a
call that finds the pruned window already at the limit returns the
positive wait `60 - (now - oldest_admission) + 0.1` and records no
admission, while a call below the limit records `now` and returns 0. -/
theorem rate_limiter_window_bound (maxReq : Nat) (hmax : 0 < maxReq)
    (ts : List ℚ) (hsort : ts.Sorted (· ≤ ·)) (t : ℚ) :
    zeroCallsIn (runCalls maxReq [] ts).1 t ≤ maxReq
    ∧ (∀ now reqs, maxReq ≤ (pruneWindow now reqs).length →
        wait_if_needed maxReq now reqs =
          (60 - (now - listMin (pruneWindow now reqs)) + 1 / 10,
            pruneWindow now reqs)
        ∧ 0 < 60 - (now - listMin (pruneWindow now reqs)) + 1 / 10)
    ∧ (∀ now reqs, (pruneWindow now reqs).length < maxReq →
        wait_if_needed maxReq now reqs =
          (0, pruneWindow now reqs ++ [now])) := by
  refine ⟨?_,
    fun now reqs hge => wait_if_needed_reject maxReq now reqs hmax hge,
    fun now reqs hlt => wait_if_needed_admit maxReq now reqs hlt⟩
  have hz := runCalls_zeros maxReq hmax ts [] [] hsort (fun v _ => rfl)
  have hb := admittedH_bound maxReq ts []
    (fun v => by simp [windowCount]) t
  simp only [zeroCallsIn, hz]
  simpa using hb

/-- Witness for `rate_limiter_window_bound` at `maxReq = 1` on the call
times [0, 10, 70] with the window ending at 10, the at-limit conjunct at
`now = 10` against window [0], and the below-limit conjunct at `now = 0`
against the empty window. -/
theorem rate_limiter_window_bound_witness :
    zeroCallsIn (runCalls 1 [] [0, 10, 70]).1 10 ≤ 1
    ∧ (wait_if_needed 1 10 [0] =
        (60 - ((10 : ℚ) - listMin (pruneWindow 10 [0])) + 1 / 10,
          pruneWindow 10 [0])
      ∧ (0 : ℚ) < 60 - (10 - listMin (pruneWindow 10 [0])) + 1 / 10)
    ∧ wait_if_needed 1 0 [] = (0, pruneWindow 0 [] ++ [0]) :=
  ⟨(rate_limiter_window_bound 1 (by decide) [0, 10, 70] (by decide) 10).1,
    (rate_limiter_window_bound 1 (by decide) [0, 10, 70] (by decide) 10).2.1
      10 [0] (by norm_num [pruneWindow, List.filter]),
    (rate_limiter_window_bound 1 (by decide) [0, 10, 70] (by decide) 10).2.2
      0 [] (by simp [pruneWindow])⟩

end GHPL
